import Mathlib

/-!
Verification of the shared-memory snapshot decoder in
`src/scripts/debug-shm.py` (gnome-pipewire-volume-mixer).

The byte buffer read from the shared-memory file is embedded as a
`List Nat` (one entry per byte).  Machine integers are `Nat` with the
relevant bounds stated explicitly.  The 32-bit IEEE-754 `volume` field is
represented by its little-endian 32-bit pattern: `struct.unpack` maps the
four bytes bijectively onto float representations, so bit-for-bit
preservation of the float is exactly equality of the patterns.
Python strings are represented as lists of Unicode code points.
-/

/-- Single byte access `data[i]`, defaulting to 0 out of bounds.  Every use
in the embedded parser mirrors an access the Python source performs only
after a bounds check (the instrumented parser below makes that precise). -/
def byteAt (data : List Nat) (i : Nat) : Nat := data.getD i 0

/-- Little-endian 32-bit read, `struct.unpack('<I', data[off:off+4])[0]`
(and the bytes backing `struct.unpack('<f', ...)`). -/
def readU32 (data : List Nat) (off : Nat) : Nat :=
  byteAt data off + 256 * byteAt data (off + 1) + 65536 * byteAt data (off + 2) +
    16777216 * byteAt data (off + 3)

/-- Little-endian 64-bit read, `struct.unpack('<Q', data[off:off+8])[0]`. -/
def readU64 (data : List Nat) (off : Nat) : Nat :=
  byteAt data off + 256 * byteAt data (off + 1) + 65536 * byteAt data (off + 2) +
    16777216 * byteAt data (off + 3) + 4294967296 * byteAt data (off + 4) +
    1099511627776 * byteAt data (off + 5) + 281474976710656 * byteAt data (off + 6) +
    72057594037927936 * byteAt data (off + 7)

/-- Lower bound of the first continuation byte admitted after lead byte `b`
(UTF-8 shortest-form rules, as enforced by CPython's decoder). -/
def cont1Lo (b : Nat) : Nat := if b = 0xE0 then 0xA0 else if b = 0xF0 then 0x90 else 0x80

/-- Upper bound of the first continuation byte admitted after lead byte `b`
(`0xED` excludes surrogates, `0xF4` caps code points at `0x10FFFF`). -/
def cont1Hi (b : Nat) : Nat := if b = 0xED then 0x9F else if b = 0xF4 then 0x8F else 0xBF

/-- State of the incremental UTF-8 decoder: either between characters, or
expecting `k` more continuation bytes of which the next must lie in
`[lo, hi]`, with `acc` the bits gathered so far. -/
inductive Utf8State where
  | start : Utf8State
  | need (k : Nat) (acc : Nat) (lo hi : Nat) : Utf8State

/-- Dispatch one byte as the lead of a new UTF-8 sequence: ASCII is
emitted directly, well-formed lead bytes open a multi-byte sequence, and
anything else (continuation bytes in lead position, overlong leads `C0`
and `C1`, and `F5`–`FF`) is dropped, as `errors='ignore'` does. -/
def utf8Lead (b : Nat) : List Nat × Utf8State :=
  if b < 0x80 then ([b], .start)
  else if 0xC2 ≤ b ∧ b ≤ 0xDF then ([], .need 1 (b - 0xC0) 0x80 0xBF)
  else if 0xE0 ≤ b ∧ b ≤ 0xEF then ([], .need 2 (b - 0xE0) (cont1Lo b) (cont1Hi b))
  else if 0xF0 ≤ b ∧ b ≤ 0xF4 then ([], .need 3 (b - 0xF0) (cont1Lo b) (cont1Hi b))
  else ([], .start)

/-- Feed one byte to the decoder.  An out-of-range byte in continuation
position drops the pending (maximal ill-formed) subpart and re-dispatches
the byte as a fresh lead, matching CPython's handling of decoding errors
under `errors='ignore'`. -/
def utf8Step (st : Utf8State) (b : Nat) : List Nat × Utf8State :=
  match st with
  | .start => utf8Lead b
  | .need k acc lo hi =>
    if lo ≤ b ∧ b ≤ hi then
      match k with
      | 0 => ([acc * 64 + (b - 0x80)], .start)
      | 1 => ([acc * 64 + (b - 0x80)], .start)
      | k2 + 2 => ([], .need (k2 + 1) (acc * 64 + (b - 0x80)) 0x80 0xBF)
    else utf8Lead b

/-- Run the decoder over a byte list; a sequence left incomplete at the
end of input is dropped. -/
def utf8Run (st : Utf8State) : List Nat → List Nat
  | [] => []
  | b :: rest =>
    let s := utf8Step st b
    s.1 ++ utf8Run s.2 rest

/-- CPython `bytes.decode('utf-8', errors='ignore')`: decode UTF-8,
dropping the maximal subpart of each ill-formed subsequence instead of
raising.  Input is a byte list, output the list of decoded code points. -/
def utf8DecodeIgnore (l : List Nat) : List Nat := utf8Run .start l

/-- Embedding of `read_string(data, offset)` from the source: read a
length byte, fail with `None` at or past the end of the buffer or when
fewer than `length` bytes remain after the length byte, otherwise decode
the payload leniently and advance the cursor past it. -/
def read_string (data : List Nat) (offset : Nat) : Option (List Nat) × Nat :=
  if offset ≥ data.length then (none, offset)
  else
    let length := byteAt data offset
    let offset1 := offset + 1
    if offset1 + length > data.length then (none, offset1)
    else (some (utf8DecodeIgnore ((data.drop offset1).take length)), offset1 + length)

/-- Header fields parsed at fixed offsets 0, 4 and 12. -/
structure Header where
  version : Nat
  generation : Nat
  timestamp : Nat
  deriving DecidableEq, Repr

/-- One decoded sink record.  `volume` holds the little-endian 32-bit
pattern of the IEEE-754 float read by `struct.unpack('<f', ...)`. -/
structure Sink where
  name : List Nat
  sink_id : Nat
  volume : Nat
  muted : Bool
  deriving DecidableEq, Repr

/-- One decoded app record. -/
structure App where
  name : List Nat
  current_sink : List Nat
  active : Bool
  deriving DecidableEq, Repr

/-- Result of one counted parsing loop: the records printed, the final
value of the `offset` variable, and whether the loop hit `break`. -/
structure LoopResult (α : Type) where
  items : List α
  offset : Nat
  truncated : Bool
  deriving DecidableEq, Repr

/-- The sink loop (`for i in range(sink_count)` in the source): read a
name, stop on `None`, stop when fewer than 9 bytes remain, otherwise read
id (4 bytes), volume (4 bytes) and the muted byte, and continue. -/
def parseSinks (data : List Nat) : Nat → Nat → LoopResult Sink
  | 0, offset => ⟨[], offset, false⟩
  | n + 1, offset =>
    match read_string data offset with
    | (none, off1) => ⟨[], off1, true⟩
    | (some name, off1) =>
      if off1 + 9 > data.length then ⟨[], off1, true⟩
      else
        let sink_id := readU32 data off1
        let volume := readU32 data (off1 + 4)
        let muted := byteAt data (off1 + 8) == 1
        let r := parseSinks data n (off1 + 9)
        ⟨⟨name, sink_id, volume, muted⟩ :: r.items, r.offset, r.truncated⟩

/-- The app loop (`for i in range(app_count)` in the source): read the app
name and the current-sink name, stop on either `None`, stop if the active
byte is past the end, otherwise read it and continue. -/
def parseApps (data : List Nat) : Nat → Nat → LoopResult App
  | 0, offset => ⟨[], offset, false⟩
  | n + 1, offset =>
    match read_string data offset with
    | (none, off1) => ⟨[], off1, true⟩
    | (some name, off1) =>
      match read_string data off1 with
      | (none, off2) => ⟨[], off2, true⟩
      | (some current_sink, off2) =>
        if off2 ≥ data.length then ⟨[], off2, true⟩
        else
          let active := byteAt data off2 == 1
          let r := parseApps data n (off2 + 1)
          ⟨⟨name, current_sink, active⟩ :: r.items, r.offset, r.truncated⟩

/-- Models CPython `datetime.fromtimestamp(ms / 1000)` raising for values
outside the representable `datetime` range (year at most 9999; the exact
boundary is timezone dependent, the UTC bound 253402300799 s is used; all
theorems below instantiate it far from the boundary).  The call sits on
the path between the header prints and the sink section and its exception
is caught by the top-level `except` handler. -/
def fromtimestampRaises (ms : Nat) : Bool := 253402300799 < ms / 1000

/-- Outcome of `parse_shared_memory`, one constructor per exit path of the
source, carrying exactly the data printed on that path: `tooSmall` prints
only the too-small message, `parseError` occurs after the Version and
Generation lines, `noAppData` after the sink lines, `done` after
everything including the total size. -/
inductive ParseResult where
  | tooSmall : ParseResult
  | parseError (version generation : Nat) : ParseResult
  | noSinkData (header : Header) : ParseResult
  | noAppData (header : Header) (sink_count : Nat) (sinks : List Sink)
      (sinkTruncated : Bool) : ParseResult
  | done (header : Header) (sink_count : Nat) (sinks : List Sink) (sinkTruncated : Bool)
      (app_count : Nat) (apps : List App) (appTruncated : Bool) (finalOffset : Nat) : ParseResult
  deriving DecidableEq, Repr

/-- The sink records contained in a parse outcome ([] on the paths that
never reach the sink loop). -/
def ParseResult.sinksOf : ParseResult → List Sink
  | .noAppData _ _ s _ => s
  | .done _ _ s _ _ _ _ _ => s
  | _ => []

/-- Embedding of `parse_shared_memory` on an in-memory buffer (the file
read and all printing are the incidental I/O around this logic). -/
def parse_shared_memory (data : List Nat) : ParseResult :=
  if data.length < 32 then .tooSmall
  else
    let version := readU32 data 0
    let generation := readU64 data 4
    let timestamp := readU64 data 12
    if fromtimestampRaises timestamp then .parseError version generation
    else if 32 + 4 > data.length then .noSinkData ⟨version, generation, timestamp⟩
    else
      let sink_count := readU32 data 32
      let rs := parseSinks data sink_count 36
      if rs.offset + 4 > data.length then
        .noAppData ⟨version, generation, timestamp⟩ sink_count rs.items rs.truncated
      else
        let app_count := readU32 data rs.offset
        let ra := parseApps data app_count (rs.offset + 4)
        .done ⟨version, generation, timestamp⟩ sink_count rs.items rs.truncated
          app_count ra.items ra.truncated ra.offset

/-! ### The §3 layout, written out as an encoder

The repository contains no writer for the format; the encoder below
transcribes the byte layout of §3 of the specification (little-endian
integers, length-prefixed UTF-8 strings, single-byte booleans) so that
round-trip and truncation properties can be stated. -/

/-- Standard UTF-8 encoding of one Unicode scalar value. -/
def utf8EncodeChar (c : Nat) : List Nat :=
  if c < 0x80 then [c]
  else if c < 0x800 then [0xC0 + c / 64, 0x80 + c % 64]
  else if c < 0x10000 then [0xE0 + c / 4096, 0x80 + c / 64 % 64, 0x80 + c % 64]
  else [0xF0 + c / 262144, 0x80 + c / 4096 % 64, 0x80 + c / 64 % 64, 0x80 + c % 64]

/-- UTF-8 encoding of a code-point list. -/
def utf8Encode (cps : List Nat) : List Nat := (cps.map utf8EncodeChar).flatten

/-- A Unicode scalar value: below `0x110000` and not a surrogate. -/
def ValidScalar (c : Nat) : Prop := c < 0x110000 ∧ ¬(0xD800 ≤ c ∧ c ≤ 0xDFFF)

instance (c : Nat) : Decidable (ValidScalar c) := by unfold ValidScalar; infer_instance

/-- Little-endian 4-byte encoding of an unsigned 32-bit integer. -/
def encodeU32 (x : Nat) : List Nat :=
  [x % 256, x / 256 % 256, x / 65536 % 256, x / 16777216 % 256]

/-- Little-endian 8-byte encoding of an unsigned 64-bit integer. -/
def encodeU64 (x : Nat) : List Nat :=
  [x % 256, x / 256 % 256, x / 65536 % 256, x / 16777216 % 256,
   x / 4294967296 % 256, x / 1099511627776 % 256, x / 281474976710656 % 256,
   x / 72057594037927936 % 256]

/-- Length-prefixed string field: one length byte, then the UTF-8 bytes. -/
def encodeString (name : List Nat) : List Nat :=
  (utf8Encode name).length :: utf8Encode name

/-- One sink record per §3: name, id, volume (its 4 float bytes), muted. -/
def encodeSink (s : Sink) : List Nat :=
  encodeString s.name ++ encodeU32 s.sink_id ++ encodeU32 s.volume ++
    [if s.muted then 1 else 0]

/-- One app record per §3: name, current sink, active byte. -/
def encodeApp (a : App) : List Nat :=
  encodeString a.name ++ encodeString a.current_sink ++ [if a.active then 1 else 0]

/-- The 32-byte header: version, generation, timestamp, 12 reserved bytes. -/
def encodeHeader (h : Header) : List Nat :=
  encodeU32 h.version ++ encodeU64 h.generation ++ encodeU64 h.timestamp ++
    List.replicate 12 0

/-- A whole snapshot per §3: header, sink count and records, app count and
records. -/
def encodeSnapshot (h : Header) (sinks : List Sink) (apps : List App) : List Nat :=
  encodeHeader h ++ encodeU32 sinks.length ++ (sinks.map encodeSink).flatten ++
    encodeU32 apps.length ++ (apps.map encodeApp).flatten

/-- A name that fits the layout: scalar code points whose UTF-8 encoding
fits the single length byte. -/
def WfName (name : List Nat) : Prop :=
  (∀ c ∈ name, ValidScalar c) ∧ (utf8Encode name).length ≤ 255

instance (name : List Nat) : Decidable (WfName name) := by unfold WfName; infer_instance

/-- A sink record representable in the layout. -/
def WfSink (s : Sink) : Prop :=
  WfName s.name ∧ s.sink_id < 4294967296 ∧ s.volume < 4294967296

instance (s : Sink) : Decidable (WfSink s) := by unfold WfSink; infer_instance

/-- An app record representable in the layout. -/
def WfApp (a : App) : Prop := WfName a.name ∧ WfName a.current_sink

instance (a : App) : Decidable (WfApp a) := by unfold WfApp; infer_instance

/-- A header representable in the layout. -/
def WfHeader (h : Header) : Prop :=
  h.version < 4294967296 ∧ h.generation < 18446744073709551616 ∧
    h.timestamp < 18446744073709551616

instance (h : Header) : Decidable (WfHeader h) := by unfold WfHeader; infer_instance

/-- Formalises the phrase "the sinks whose complete encodings lie entirely
before the truncation point": the maximal prefix of `sinks` whose encoded
records fit in `budget` bytes. -/
def sinksCompleteWithin (sinks : List Sink) (budget : Nat) : List Sink :=
  match sinks with
  | [] => []
  | s :: rest =>
    if (encodeSink s).length ≤ budget then
      s :: sinksCompleteWithin rest (budget - (encodeSink s).length)
    else []

/-! ### A bounds-instrumented copy of the parser

For the memory-safety claim, each primitive buffer access of the parser is
replaced by a checked version that returns `none` when the access would
fall outside the buffer; the instrumented parser propagates `none`.  Its
agreement with the plain parser on every input shows that each access the
source performs happens only inside the buffer. -/

/-- Checked single-byte access. -/
def byteAtC (data : List Nat) (i : Nat) : Option Nat :=
  if i < data.length then some (byteAt data i) else none

/-- Checked 4-byte field read. -/
def readU32C (data : List Nat) (off : Nat) : Option Nat :=
  if off + 4 ≤ data.length then some (readU32 data off) else none

/-- Checked 8-byte field read. -/
def readU64C (data : List Nat) (off : Nat) : Option Nat :=
  if off + 8 ≤ data.length then some (readU64 data off) else none

/-- Checked byte-range read (the string payload slice). -/
def sliceC (data : List Nat) (start len : Nat) : Option (List Nat) :=
  if start + len ≤ data.length then some ((data.drop start).take len) else none

/-- `read_string` with every buffer access checked. -/
def read_stringC (data : List Nat) (offset : Nat) : Option (Option (List Nat) × Nat) :=
  if offset ≥ data.length then some (none, offset)
  else
    match byteAtC data offset with
    | none => none
    | some length =>
      if offset + 1 + length > data.length then some (none, offset + 1)
      else
        match sliceC data (offset + 1) length with
        | none => none
        | some payload => some (some (utf8DecodeIgnore payload), offset + 1 + length)

/-- The sink loop with every buffer access checked. -/
def parseSinksC (data : List Nat) : Nat → Nat → Option (LoopResult Sink)
  | 0, offset => some ⟨[], offset, false⟩
  | n + 1, offset =>
    match read_stringC data offset with
    | none => none
    | some (none, off1) => some ⟨[], off1, true⟩
    | some (some name, off1) =>
      if off1 + 9 > data.length then some ⟨[], off1, true⟩
      else
        match readU32C data off1, readU32C data (off1 + 4), byteAtC data (off1 + 8) with
        | some sink_id, some volume, some mb =>
          match parseSinksC data n (off1 + 9) with
          | none => none
          | some r => some ⟨⟨name, sink_id, volume, mb == 1⟩ :: r.items, r.offset, r.truncated⟩
        | _, _, _ => none

/-- The app loop with every buffer access checked. -/
def parseAppsC (data : List Nat) : Nat → Nat → Option (LoopResult App)
  | 0, offset => some ⟨[], offset, false⟩
  | n + 1, offset =>
    match read_stringC data offset with
    | none => none
    | some (none, off1) => some ⟨[], off1, true⟩
    | some (some name, off1) =>
      match read_stringC data off1 with
      | none => none
      | some (none, off2) => some ⟨[], off2, true⟩
      | some (some current_sink, off2) =>
        if off2 ≥ data.length then some ⟨[], off2, true⟩
        else
          match byteAtC data off2 with
          | none => none
          | some ab =>
            match parseAppsC data n (off2 + 1) with
            | none => none
            | some r => some ⟨⟨name, current_sink, ab == 1⟩ :: r.items, r.offset, r.truncated⟩

/-- `parse_shared_memory` with every buffer access checked. -/
def parse_shared_memoryC (data : List Nat) : Option ParseResult :=
  if data.length < 32 then some .tooSmall
  else
    match readU32C data 0, readU64C data 4, readU64C data 12 with
    | some version, some generation, some timestamp =>
      if fromtimestampRaises timestamp then some (.parseError version generation)
      else if 32 + 4 > data.length then some (.noSinkData ⟨version, generation, timestamp⟩)
      else
        match readU32C data 32 with
        | none => none
        | some sink_count =>
          match parseSinksC data sink_count 36 with
          | none => none
          | some rs =>
            if rs.offset + 4 > data.length then
              some (.noAppData ⟨version, generation, timestamp⟩ sink_count rs.items rs.truncated)
            else
              match readU32C data rs.offset with
              | none => none
              | some app_count =>
                match parseAppsC data app_count (rs.offset + 4) with
                | none => none
                | some ra =>
                  some (.done ⟨version, generation, timestamp⟩ sink_count rs.items rs.truncated
                    app_count ra.items ra.truncated ra.offset)
    | _, _, _ => none

lemma byteAt_append_right (base l : List Nat) (j : Nat) (h : base.length ≤ j) :
    byteAt (base ++ l) j = byteAt l (j - base.length) :=
  List.getD_append_right base l 0 j h

lemma readU32_at (base : List Nat) (x : Nat) (rest : List Nat) (hx : x < 4294967296) :
    readU32 (base ++ (encodeU32 x ++ rest)) base.length = x := by
  have e : base ++ (encodeU32 x ++ rest) =
      base ++ (x % 256 :: x / 256 % 256 :: x / 65536 % 256 :: x / 16777216 % 256 :: rest) := by
    simp [encodeU32]
  rw [e]
  unfold readU32
  rw [byteAt_append_right _ _ _ (by omega), byteAt_append_right _ _ _ (by omega),
    byteAt_append_right _ _ _ (by omega), byteAt_append_right _ _ _ (by omega)]
  simp only [Nat.sub_self, Nat.add_sub_cancel_left, byteAt, List.getD_cons_zero,
    List.getD_cons_succ]
  omega

lemma readU64_at (base : List Nat) (x : Nat) (rest : List Nat)
    (hx : x < 18446744073709551616) :
    readU64 (base ++ (encodeU64 x ++ rest)) base.length = x := by
  have e : base ++ (encodeU64 x ++ rest) =
      base ++ (x % 256 :: x / 256 % 256 :: x / 65536 % 256 :: x / 16777216 % 256 ::
        x / 4294967296 % 256 :: x / 1099511627776 % 256 :: x / 281474976710656 % 256 ::
        x / 72057594037927936 % 256 :: rest) := by
    simp [encodeU64]
  rw [e]
  unfold readU64
  rw [byteAt_append_right _ _ _ (by omega), byteAt_append_right _ _ _ (by omega),
    byteAt_append_right _ _ _ (by omega), byteAt_append_right _ _ _ (by omega),
    byteAt_append_right _ _ _ (by omega), byteAt_append_right _ _ _ (by omega),
    byteAt_append_right _ _ _ (by omega), byteAt_append_right _ _ _ (by omega)]
  simp only [Nat.sub_self, Nat.add_sub_cancel_left, byteAt, List.getD_cons_zero,
    List.getD_cons_succ]
  omega

lemma read_string_at (base payload rest : List Nat) :
    read_string (base ++ ((payload.length :: payload) ++ rest)) base.length
      = (some (utf8DecodeIgnore payload), base.length + 1 + payload.length) := by
  have hlen : (base ++ ((payload.length :: payload) ++ rest)).length
      = base.length + 1 + payload.length + rest.length := by
    simp [List.length_append]; omega
  have hbyte : byteAt (base ++ ((payload.length :: payload) ++ rest)) base.length
      = payload.length := by
    rw [byteAt_append_right _ _ _ (by omega)]
    simp [byteAt, Nat.sub_self]
  have hslice : ((base ++ ((payload.length :: payload) ++ rest)).drop (base.length + 1)).take
      payload.length = payload := by
    have e : base ++ ((payload.length :: payload) ++ rest)
        = (base ++ [payload.length]) ++ (payload ++ rest) := by simp
    rw [e, show base.length + 1 = (base ++ [payload.length]).length by simp,
      List.drop_left, List.take_left]
  unfold read_string
  rw [if_neg (by omega), hbyte, if_neg (by omega), hslice]

lemma utf8Run_encodeChar (c : Nat) (h : ValidScalar c) (rest : List Nat) :
    utf8Run .start (utf8EncodeChar c ++ rest) = c :: utf8Run .start rest := by
  obtain ⟨hub, hsur⟩ := h
  by_cases h1 : c < 0x80
  · have e : utf8EncodeChar c = [c] := by rw [utf8EncodeChar, if_pos h1]
    have s0 : utf8Step .start c = ([c], .start) := by
      simp only [utf8Step, utf8Lead]
      rw [if_pos h1]
    rw [e]
    simp only [List.cons_append, List.nil_append, utf8Run, s0]
    rfl
  · by_cases h2 : c < 0x800
    · have e : utf8EncodeChar c = [0xC0 + c / 64, 0x80 + c % 64] := by
        rw [utf8EncodeChar, if_neg h1, if_pos h2]
      have s0 : utf8Step .start (0xC0 + c / 64) = ([], .need 1 (c / 64) 0x80 0xBF) := by
        simp only [utf8Step, utf8Lead]
        rw [if_neg (by omega), if_pos (by constructor <;> omega)]
        simp [Nat.add_sub_cancel_left]
      have s1 : utf8Step (.need 1 (c / 64) 0x80 0xBF) (0x80 + c % 64) = ([c], .start) := by
        simp only [utf8Step]
        rw [if_pos (by constructor <;> omega)]
        simp only [List.cons.injEq, Prod.mk.injEq, and_true, true_and]
        all_goals omega
      rw [e]
      simp only [List.cons_append, List.nil_append, utf8Run, s0, s1]
      rfl
    · by_cases h3 : c < 0x10000
      · have e : utf8EncodeChar c =
            [0xE0 + c / 4096, 0x80 + c / 64 % 64, 0x80 + c % 64] := by
          rw [utf8EncodeChar, if_neg h1, if_neg h2, if_pos h3]
        have hc1 : cont1Lo (0xE0 + c / 4096) ≤ 0x80 + c / 64 % 64 ∧
            0x80 + c / 64 % 64 ≤ cont1Hi (0xE0 + c / 4096) := by
          unfold cont1Lo cont1Hi
          constructor <;> split_ifs <;> omega
        have s0 : utf8Step .start (0xE0 + c / 4096) =
            ([], .need 2 (c / 4096) (cont1Lo (0xE0 + c / 4096)) (cont1Hi (0xE0 + c / 4096))) := by
          simp only [utf8Step, utf8Lead]
          rw [if_neg (by omega), if_neg (by omega), if_pos (by constructor <;> omega)]
          simp [Nat.add_sub_cancel_left]
        have s1 : utf8Step (.need 2 (c / 4096) (cont1Lo (0xE0 + c / 4096))
              (cont1Hi (0xE0 + c / 4096))) (0x80 + c / 64 % 64) =
            ([], .need 1 (c / 4096 * 64 + c / 64 % 64) 0x80 0xBF) := by
          simp only [utf8Step]
          rw [if_pos hc1]
          simp only [Prod.mk.injEq, Utf8State.need.injEq, and_true, true_and]
          all_goals omega
        have s2 : utf8Step (.need 1 (c / 4096 * 64 + c / 64 % 64) 0x80 0xBF)
              (0x80 + c % 64) = ([c], .start) := by
          simp only [utf8Step]
          rw [if_pos (by constructor <;> omega)]
          simp only [List.cons.injEq, Prod.mk.injEq, and_true, true_and]
          all_goals omega
        rw [e]
        simp only [List.cons_append, List.nil_append, utf8Run, s0, s1, s2]
        rfl
      · have e : utf8EncodeChar c =
            [0xF0 + c / 262144, 0x80 + c / 4096 % 64, 0x80 + c / 64 % 64, 0x80 + c % 64] := by
          rw [utf8EncodeChar, if_neg h1, if_neg h2, if_neg h3]
        have hc1 : cont1Lo (0xF0 + c / 262144) ≤ 0x80 + c / 4096 % 64 ∧
            0x80 + c / 4096 % 64 ≤ cont1Hi (0xF0 + c / 262144) := by
          unfold cont1Lo cont1Hi
          constructor <;> split_ifs <;> omega
        have s0 : utf8Step .start (0xF0 + c / 262144) =
            ([], .need 3 (c / 262144) (cont1Lo (0xF0 + c / 262144))
              (cont1Hi (0xF0 + c / 262144))) := by
          simp only [utf8Step, utf8Lead]
          rw [if_neg (by omega), if_neg (by omega), if_neg (by omega),
            if_pos (by constructor <;> omega)]
          simp [Nat.add_sub_cancel_left]
        have s1 : utf8Step (.need 3 (c / 262144) (cont1Lo (0xF0 + c / 262144))
              (cont1Hi (0xF0 + c / 262144))) (0x80 + c / 4096 % 64) =
            ([], .need 2 (c / 262144 * 64 + c / 4096 % 64) 0x80 0xBF) := by
          simp only [utf8Step]
          rw [if_pos hc1]
          simp only [Prod.mk.injEq, Utf8State.need.injEq, and_true, true_and]
          all_goals omega
        have s2 : utf8Step (.need 2 (c / 262144 * 64 + c / 4096 % 64) 0x80 0xBF)
              (0x80 + c / 64 % 64) =
            ([], .need 1 ((c / 262144 * 64 + c / 4096 % 64) * 64 + c / 64 % 64) 0x80 0xBF) := by
          simp only [utf8Step]
          rw [if_pos (by constructor <;> omega)]
          simp only [Prod.mk.injEq, Utf8State.need.injEq, and_true, true_and]
          all_goals omega
        have s3 : utf8Step (.need 1 ((c / 262144 * 64 + c / 4096 % 64) * 64 + c / 64 % 64)
              0x80 0xBF) (0x80 + c % 64) = ([c], .start) := by
          simp only [utf8Step]
          rw [if_pos (by constructor <;> omega)]
          simp only [List.cons.injEq, Prod.mk.injEq, and_true, true_and]
          all_goals omega
        rw [e]
        simp only [List.cons_append, List.nil_append, utf8Run, s0, s1, s2, s3]
        rfl

lemma utf8DecodeIgnore_encode (cps : List Nat) (h : ∀ c ∈ cps, ValidScalar c) :
    utf8DecodeIgnore (utf8Encode cps) = cps := by
  induction cps with
  | nil => rfl
  | cons c tl ih =>
    have e : utf8Encode (c :: tl) = utf8EncodeChar c ++ utf8Encode tl := by
      simp [utf8Encode]
    unfold utf8DecodeIgnore
    rw [e, utf8Run_encodeChar c (h c (by simp)) (utf8Encode tl)]
    have := ih (fun x hx => h x (by simp [hx]))
    unfold utf8DecodeIgnore at this
    rw [this]

lemma length_encodeString (name : List Nat) :
    (encodeString name).length = 1 + (utf8Encode name).length := by
  simp [encodeString]
  omega

lemma length_encodeSink (s : Sink) :
    (encodeSink s).length = (utf8Encode s.name).length + 10 := by
  simp [encodeSink, encodeString, encodeU32]

lemma length_encodeApp (a : App) :
    (encodeApp a).length =
      (utf8Encode a.name).length + (utf8Encode a.current_sink).length + 3 := by
  simp [encodeApp, encodeString]
  omega

lemma length_encodeHeader (h : Header) : (encodeHeader h).length = 32 := by
  simp [encodeHeader, encodeU32, encodeU64]

lemma beq_one_muted (b : Bool) : ((if b then (1 : Nat) else 0) == 1) = b := by
  cases b <;> rfl

lemma parseSinks_step (s : Sink) (hid : s.sink_id < 4294967296)
    (hvol : s.volume < 4294967296) (base rest : List Nat) (n : Nat) :
    parseSinks (base ++ (encodeSink s ++ rest)) (n + 1) base.length =
      let r := parseSinks (base ++ (encodeSink s ++ rest)) n
        (base.length + (encodeSink s).length)
      ⟨⟨utf8DecodeIgnore (utf8Encode s.name), s.sink_id, s.volume, s.muted⟩ :: r.items,
        r.offset, r.truncated⟩ := by
  have hlen : (base ++ (encodeSink s ++ rest)).length
      = base.length + ((utf8Encode s.name).length + 10) + rest.length := by
    simp [List.length_append, length_encodeSink]
    omega
  have hrs : read_string (base ++ (encodeSink s ++ rest)) base.length
      = (some (utf8DecodeIgnore (utf8Encode s.name)),
         base.length + 1 + (utf8Encode s.name).length) := by
    have e1 : base ++ (encodeSink s ++ rest)
        = base ++ (((utf8Encode s.name).length :: utf8Encode s.name) ++
            (encodeU32 s.sink_id ++ (encodeU32 s.volume ++
              ([if s.muted then 1 else 0] ++ rest)))) := by
      simp [encodeSink, encodeString, List.append_assoc]
    rw [e1]
    exact read_string_at base (utf8Encode s.name) _
  have hid2 : readU32 (base ++ (encodeSink s ++ rest))
      (base.length + 1 + (utf8Encode s.name).length) = s.sink_id := by
    have e2 : base ++ (encodeSink s ++ rest)
        = (base ++ encodeString s.name) ++ (encodeU32 s.sink_id ++
            (encodeU32 s.volume ++ ([if s.muted then 1 else 0] ++ rest))) := by
      simp [encodeSink, encodeString, List.append_assoc]
    rw [show base.length + 1 + (utf8Encode s.name).length
        = (base ++ encodeString s.name).length from by
      simp [List.length_append, encodeString]; omega]
    rw [e2]
    exact readU32_at _ _ _ hid
  have hvol2 : readU32 (base ++ (encodeSink s ++ rest))
      (base.length + 1 + (utf8Encode s.name).length + 4) = s.volume := by
    have e3 : base ++ (encodeSink s ++ rest)
        = (base ++ encodeString s.name ++ encodeU32 s.sink_id) ++
            (encodeU32 s.volume ++ ([if s.muted then 1 else 0] ++ rest)) := by
      simp [encodeSink, encodeString, List.append_assoc]
    rw [show base.length + 1 + (utf8Encode s.name).length + 4
        = (base ++ encodeString s.name ++ encodeU32 s.sink_id).length from by
      simp [List.length_append, encodeString, encodeU32]; omega]
    rw [e3]
    exact readU32_at _ _ _ hvol
  have hmut : byteAt (base ++ (encodeSink s ++ rest))
      (base.length + 1 + (utf8Encode s.name).length + 8)
      = (if s.muted then 1 else 0) := by
    have e4 : base ++ (encodeSink s ++ rest)
        = (base ++ encodeString s.name ++ encodeU32 s.sink_id ++ encodeU32 s.volume) ++
            ((if s.muted then 1 else 0) :: rest) := by
      simp [encodeSink, encodeString, List.append_assoc]
    rw [show base.length + 1 + (utf8Encode s.name).length + 8
        = (base ++ encodeString s.name ++ encodeU32 s.sink_id ++ encodeU32 s.volume).length
        from by simp [List.length_append, encodeString, encodeU32]; omega]
    rw [e4, byteAt_append_right _ _ _ (Nat.le_refl _)]
    simp [byteAt, Nat.sub_self]
  have hoff : base.length + 1 + (utf8Encode s.name).length + 9
      = base.length + (encodeSink s).length := by
    rw [length_encodeSink]; omega
  simp only [parseSinks, hrs]
  rw [if_neg (by omega)]
  simp only [hid2, hvol2, hmut, beq_one_muted, hoff]

lemma parseApps_step (a : App) (base rest : List Nat) (n : Nat) :
    parseApps (base ++ (encodeApp a ++ rest)) (n + 1) base.length =
      let r := parseApps (base ++ (encodeApp a ++ rest)) n
        (base.length + (encodeApp a).length)
      ⟨⟨utf8DecodeIgnore (utf8Encode a.name), utf8DecodeIgnore (utf8Encode a.current_sink),
          a.active⟩ :: r.items, r.offset, r.truncated⟩ := by
  have hlen : (base ++ (encodeApp a ++ rest)).length
      = base.length + ((utf8Encode a.name).length + (utf8Encode a.current_sink).length + 3)
          + rest.length := by
    simp [List.length_append, length_encodeApp]
    omega
  have hrs1 : read_string (base ++ (encodeApp a ++ rest)) base.length
      = (some (utf8DecodeIgnore (utf8Encode a.name)),
         base.length + 1 + (utf8Encode a.name).length) := by
    have e1 : base ++ (encodeApp a ++ rest)
        = base ++ (((utf8Encode a.name).length :: utf8Encode a.name) ++
            (encodeString a.current_sink ++ ([if a.active then 1 else 0] ++ rest))) := by
      simp [encodeApp, encodeString, List.append_assoc]
    rw [e1]
    exact read_string_at base (utf8Encode a.name) _
  have hrs2 : read_string (base ++ (encodeApp a ++ rest))
      (base.length + 1 + (utf8Encode a.name).length)
      = (some (utf8DecodeIgnore (utf8Encode a.current_sink)),
         base.length + 1 + (utf8Encode a.name).length + 1 +
           (utf8Encode a.current_sink).length) := by
    have e2 : base ++ (encodeApp a ++ rest)
        = (base ++ encodeString a.name) ++
            (((utf8Encode a.current_sink).length :: utf8Encode a.current_sink) ++
              ([if a.active then 1 else 0] ++ rest)) := by
      simp [encodeApp, encodeString, List.append_assoc]
    have hb : base.length + 1 + (utf8Encode a.name).length
        = (base ++ encodeString a.name).length := by
      simp [List.length_append, encodeString]
      omega
    rw [hb, e2]
    have := read_string_at (base ++ encodeString a.name) (utf8Encode a.current_sink)
      ([if a.active then 1 else 0] ++ rest)
    rw [this]
  have hact : byteAt (base ++ (encodeApp a ++ rest))
      (base.length + 1 + (utf8Encode a.name).length + 1 + (utf8Encode a.current_sink).length)
      = (if a.active then 1 else 0) := by
    have e3 : base ++ (encodeApp a ++ rest)
        = (base ++ encodeString a.name ++ encodeString a.current_sink) ++
            ((if a.active then 1 else 0) :: rest) := by
      simp [encodeApp, encodeString, List.append_assoc]
    rw [show base.length + 1 + (utf8Encode a.name).length + 1 +
          (utf8Encode a.current_sink).length
        = (base ++ encodeString a.name ++ encodeString a.current_sink).length from by
      simp [List.length_append, encodeString]; omega]
    rw [e3, byteAt_append_right _ _ _ (Nat.le_refl _)]
    simp [byteAt, Nat.sub_self]
  have hoff : base.length + 1 + (utf8Encode a.name).length + 1 +
      (utf8Encode a.current_sink).length + 1 = base.length + (encodeApp a).length := by
    rw [length_encodeApp]; omega
  simp only [parseApps, hrs1, hrs2]
  rw [if_neg (by omega)]
  simp only [hact, beq_one_muted, hoff]

lemma parseSinks_encode (sinks : List Sink) (hs : ∀ s ∈ sinks, WfSink s) :
    ∀ (base suffix : List Nat),
    parseSinks (base ++ ((sinks.map encodeSink).flatten ++ suffix)) sinks.length base.length
      = ⟨sinks, base.length + (sinks.map encodeSink).flatten.length, false⟩ := by
  induction sinks with
  | nil => intro base suffix; simp [parseSinks]
  | cons s tl ih =>
    intro base suffix
    obtain ⟨⟨hname, hfit⟩, hid, hvol⟩ := hs s (by simp)
    have e : base ++ (((s :: tl).map encodeSink).flatten ++ suffix)
        = base ++ (encodeSink s ++ ((tl.map encodeSink).flatten ++ suffix)) := by
      simp [List.append_assoc]
    rw [show (s :: tl).length = tl.length + 1 from rfl, e,
      parseSinks_step s hid hvol base _ tl.length]
    have e2 : base ++ (encodeSink s ++ ((tl.map encodeSink).flatten ++ suffix))
        = (base ++ encodeSink s) ++ ((tl.map encodeSink).flatten ++ suffix) := by
      simp [List.append_assoc]
    have hb : base.length + (encodeSink s).length = (base ++ encodeSink s).length := by
      simp [List.length_append]
    rw [e2, hb, ih (fun x hx => hs x (by simp [hx])) (base ++ encodeSink s) suffix]
    simp only [utf8DecodeIgnore_encode s.name hname]
    have : (⟨s.name, s.sink_id, s.volume, s.muted⟩ : Sink) = s := rfl
    rw [this]
    simp [List.length_append, length_encodeSink]
    omega

lemma parseApps_encode (apps : List App) (ha : ∀ a ∈ apps, WfApp a) :
    ∀ (base suffix : List Nat),
    parseApps (base ++ ((apps.map encodeApp).flatten ++ suffix)) apps.length base.length
      = ⟨apps, base.length + (apps.map encodeApp).flatten.length, false⟩ := by
  induction apps with
  | nil => intro base suffix; simp [parseApps]
  | cons a tl ih =>
    intro base suffix
    obtain ⟨⟨hname, _⟩, ⟨hcs, _⟩⟩ := ha a (by simp)
    have e : base ++ (((a :: tl).map encodeApp).flatten ++ suffix)
        = base ++ (encodeApp a ++ ((tl.map encodeApp).flatten ++ suffix)) := by
      simp [List.append_assoc]
    rw [show (a :: tl).length = tl.length + 1 from rfl, e,
      parseApps_step a base _ tl.length]
    have e2 : base ++ (encodeApp a ++ ((tl.map encodeApp).flatten ++ suffix))
        = (base ++ encodeApp a) ++ ((tl.map encodeApp).flatten ++ suffix) := by
      simp [List.append_assoc]
    have hb : base.length + (encodeApp a).length = (base ++ encodeApp a).length := by
      simp [List.length_append]
    rw [e2, hb, ih (fun x hx => ha x (by simp [hx])) (base ++ encodeApp a) suffix]
    simp only [utf8DecodeIgnore_encode a.name hname,
      utf8DecodeIgnore_encode a.current_sink hcs]
    have : (⟨a.name, a.current_sink, a.active⟩ : App) = a := rfl
    rw [this]
    simp [List.length_append, length_encodeApp]
    omega

lemma readU32_at0 (x : Nat) (rest : List Nat) (hx : x < 4294967296) :
    readU32 (encodeU32 x ++ rest) 0 = x := by
  have := readU32_at [] x rest hx
  simpa using this

lemma header_version (h : Header) (hh : WfHeader h) (rest : List Nat) :
    readU32 (encodeHeader h ++ rest) 0 = h.version := by
  have e : encodeHeader h ++ rest
      = encodeU32 h.version ++ (encodeU64 h.generation ++ (encodeU64 h.timestamp ++
          (List.replicate 12 0 ++ rest))) := by
    simp [encodeHeader, List.append_assoc]
  rw [e]
  exact readU32_at0 h.version _ hh.1

lemma header_generation (h : Header) (hh : WfHeader h) (rest : List Nat) :
    readU64 (encodeHeader h ++ rest) 4 = h.generation := by
  have e : encodeHeader h ++ rest
      = encodeU32 h.version ++ (encodeU64 h.generation ++ (encodeU64 h.timestamp ++
          (List.replicate 12 0 ++ rest))) := by
    simp [encodeHeader, List.append_assoc]
  rw [show (4 : Nat) = (encodeU32 h.version).length from by simp [encodeU32], e]
  exact readU64_at _ _ _ hh.2.1

lemma header_timestamp (h : Header) (hh : WfHeader h) (rest : List Nat) :
    readU64 (encodeHeader h ++ rest) 12 = h.timestamp := by
  have e : encodeHeader h ++ rest
      = (encodeU32 h.version ++ encodeU64 h.generation) ++ (encodeU64 h.timestamp ++
          (List.replicate 12 0 ++ rest)) := by
    simp [encodeHeader, List.append_assoc]
  rw [show (12 : Nat) = (encodeU32 h.version ++ encodeU64 h.generation).length from by
    simp [encodeU32, encodeU64], e]
  exact readU64_at _ _ _ hh.2.2

/-- Main agreement lemma: decoding a §3-encoded snapshot whose timestamp
converts without raising recovers the header and every record, consuming
the whole buffer with neither loop truncated. -/
lemma parse_encodeSnapshot (h : Header) (sinks : List Sink) (apps : List App)
    (hh : WfHeader h) (hts : fromtimestampRaises h.timestamp = false)
    (hs : ∀ s ∈ sinks, WfSink s) (ha : ∀ a ∈ apps, WfApp a)
    (hns : sinks.length < 4294967296) (hna : apps.length < 4294967296) :
    parse_shared_memory (encodeSnapshot h sinks apps)
      = .done h sinks.length sinks false apps.length apps false
          (encodeSnapshot h sinks apps).length := by
  have hlen : (encodeSnapshot h sinks apps).length
      = 36 + (sinks.map encodeSink).flatten.length +
          (4 + (apps.map encodeApp).flatten.length) := by
    simp [encodeSnapshot, List.length_append, length_encodeHeader, encodeU32]
    omega
  have ehdr : encodeSnapshot h sinks apps
      = encodeHeader h ++ (encodeU32 sinks.length ++ ((sinks.map encodeSink).flatten ++
          (encodeU32 apps.length ++ (apps.map encodeApp).flatten))) := by
    simp [encodeSnapshot, List.append_assoc]
  have hv : readU32 (encodeSnapshot h sinks apps) 0 = h.version := by
    rw [ehdr]; exact header_version h hh _
  have hg : readU64 (encodeSnapshot h sinks apps) 4 = h.generation := by
    rw [ehdr]; exact header_generation h hh _
  have ht : readU64 (encodeSnapshot h sinks apps) 12 = h.timestamp := by
    rw [ehdr]; exact header_timestamp h hh _
  have hsc : readU32 (encodeSnapshot h sinks apps) 32 = sinks.length := by
    rw [show (32 : Nat) = (encodeHeader h).length from (length_encodeHeader h).symm, ehdr]
    exact readU32_at (encodeHeader h) sinks.length _ hns
  have hps : parseSinks (encodeSnapshot h sinks apps) sinks.length 36
      = ⟨sinks, 36 + (sinks.map encodeSink).flatten.length, false⟩ := by
    have e : encodeSnapshot h sinks apps
        = (encodeHeader h ++ encodeU32 sinks.length) ++ ((sinks.map encodeSink).flatten ++
            (encodeU32 apps.length ++ (apps.map encodeApp).flatten)) := by
      simp [encodeSnapshot, List.append_assoc]
    have hb : (encodeHeader h ++ encodeU32 sinks.length).length = 36 := by
      simp [List.length_append, length_encodeHeader, encodeU32]
    have := parseSinks_encode sinks hs (encodeHeader h ++ encodeU32 sinks.length)
      (encodeU32 apps.length ++ (apps.map encodeApp).flatten)
    rw [hb] at this
    rw [e]
    exact this
  have hac : readU32 (encodeSnapshot h sinks apps)
      (36 + (sinks.map encodeSink).flatten.length) = apps.length := by
    have e : encodeSnapshot h sinks apps
        = (encodeHeader h ++ encodeU32 sinks.length ++ (sinks.map encodeSink).flatten) ++
            (encodeU32 apps.length ++ (apps.map encodeApp).flatten) := by
      simp [encodeSnapshot, List.append_assoc]
    have hb : (encodeHeader h ++ encodeU32 sinks.length ++
        (sinks.map encodeSink).flatten).length = 36 + (sinks.map encodeSink).flatten.length := by
      simp [List.length_append, length_encodeHeader, encodeU32]
      omega
    have := readU32_at (encodeHeader h ++ encodeU32 sinks.length ++
      (sinks.map encodeSink).flatten) apps.length (apps.map encodeApp).flatten hna
    rw [hb] at this
    rw [e]
    exact this
  have hpa : parseApps (encodeSnapshot h sinks apps) apps.length
      (36 + (sinks.map encodeSink).flatten.length + 4)
      = ⟨apps, 36 + (sinks.map encodeSink).flatten.length + 4 +
          (apps.map encodeApp).flatten.length, false⟩ := by
    have e : encodeSnapshot h sinks apps
        = (encodeHeader h ++ encodeU32 sinks.length ++ (sinks.map encodeSink).flatten ++
            encodeU32 apps.length) ++ ((apps.map encodeApp).flatten ++ []) := by
      simp [encodeSnapshot, List.append_assoc]
    have hb : (encodeHeader h ++ encodeU32 sinks.length ++ (sinks.map encodeSink).flatten ++
        encodeU32 apps.length).length
        = 36 + (sinks.map encodeSink).flatten.length + 4 := by
      simp [List.length_append, length_encodeHeader, encodeU32]
      omega
    have := parseApps_encode apps ha (encodeHeader h ++ encodeU32 sinks.length ++
      (sinks.map encodeSink).flatten ++ encodeU32 apps.length) []
    rw [hb] at this
    rw [e]
    exact this
  unfold parse_shared_memory
  rw [if_neg (by omega)]
  simp only [hv, hg, ht, hts, hsc, hps, hac, hpa, Bool.false_eq_true, if_false]
  rw [if_neg (by omega), if_neg (by omega)]
  congr 1
  omega

lemma read_stringC_eq (data : List Nat) (offset : Nat) :
    read_stringC data offset = some (read_string data offset) := by
  unfold read_stringC read_string byteAtC sliceC
  by_cases h1 : offset ≥ data.length
  · rw [if_pos h1, if_pos h1]
  · rw [if_neg h1, if_neg h1, if_pos (by omega)]
    by_cases h2 : offset + 1 + byteAt data offset > data.length
    · simp [h2]
    · simp [h2, show offset + 1 + byteAt data offset ≤ data.length from by omega]

lemma parseSinksC_eq (data : List Nat) :
    ∀ (n offset : Nat), parseSinksC data n offset = some (parseSinks data n offset) := by
  intro n
  induction n with
  | zero => intro offset; rfl
  | succ m ih =>
    intro offset
    unfold parseSinksC parseSinks
    rw [read_stringC_eq]
    rcases hr : read_string data offset with ⟨name?, off1⟩
    rcases name? with _ | name
    · rfl
    · by_cases h9 : off1 + 9 > data.length
      · simp [h9]
      · have c1 : off1 + 4 ≤ data.length := by omega
        have c2 : off1 + 4 + 4 ≤ data.length := by omega
        have c3 : off1 + 8 < data.length := by omega
        simp [h9, readU32C, byteAtC, c1, c2, c3, ih]

lemma parseAppsC_eq (data : List Nat) :
    ∀ (n offset : Nat), parseAppsC data n offset = some (parseApps data n offset) := by
  intro n
  induction n with
  | zero => intro offset; rfl
  | succ m ih =>
    intro offset
    unfold parseAppsC parseApps
    rw [read_stringC_eq]
    rcases hr : read_string data offset with ⟨name?, off1⟩
    rcases name? with _ | name
    · rfl
    · rcases hr2 : read_string data off1 with ⟨cs?, off2⟩
      rcases cs? with _ | cs
      · simp [read_stringC_eq, hr2]
      · by_cases ha2 : off2 ≥ data.length
        · simp [read_stringC_eq, hr2, ha2]
        · have c3 : off2 < data.length := by omega
          simp [read_stringC_eq, hr2, ha2, byteAtC, c3, ih]

lemma parse_shared_memoryC_eq (data : List Nat) :
    parse_shared_memoryC data = some (parse_shared_memory data) := by
  unfold parse_shared_memoryC parse_shared_memory
  by_cases h32 : data.length < 32
  · rw [if_pos h32, if_pos h32]
  · rw [if_neg h32, if_neg h32]
    unfold readU32C readU64C
    rw [if_pos (by omega), if_pos (by omega), if_pos (by omega)]
    by_cases hr : fromtimestampRaises (readU64 data 12)
    · simp [hr]
    · by_cases h36 : 32 + 4 > data.length
      · simp [hr, h36]
      · rcases hs : parseSinks data (readU32 data 32) 36 with ⟨items, off, tr⟩
        by_cases ha4 : off + 4 > data.length
        · simp [hr, h36, readU32C, show 32 + 4 ≤ data.length from by omega,
            parseSinksC_eq, hs, ha4]
        · simp [hr, h36, readU32C, show 32 + 4 ≤ data.length from by omega,
            parseSinksC_eq, hs, ha4, show off + 4 ≤ data.length from by omega,
            parseAppsC_eq]

lemma parseSinks_break_gen (L : Nat) (body base : List Nat) (hL : body.length = L + 9)
    (t : Nat) (ht : t < 1 + body.length) (n : Nat) :
    (parseSinks (base ++ (L :: body).take t) (n + 1) base.length).items = [] := by
  by_cases h0 : t = 0
  · subst h0
    have hrs : read_string (base ++ (L :: body).take 0) base.length
        = (none, base.length) := by
      unfold read_string
      rw [if_pos (by simp)]
    simp only [parseSinks]
    rw [hrs]
  · obtain ⟨t1, rfl⟩ : ∃ t1, t = t1 + 1 := ⟨t - 1, by omega⟩
    have htake : (L :: body).take (t1 + 1) = L :: body.take t1 := by
      simp [List.take_succ_cons]
    have hlen : (base ++ (L :: body).take (t1 + 1)).length = base.length + (t1 + 1) := by
      simp [List.length_append, List.length_take]
      omega
    rw [htake] at hlen ⊢
    have hbyte : byteAt (base ++ (L :: body.take t1)) base.length = L := by
      rw [byteAt_append_right _ _ _ (Nat.le_refl _)]
      simp [byteAt, Nat.sub_self]
    by_cases hc : t1 + 1 ≤ L
    · have hrs : read_string (base ++ (L :: body.take t1)) base.length
          = (none, base.length + 1) := by
        unfold read_string
        rw [if_neg (by omega), hbyte, if_pos (by omega)]
      simp only [parseSinks]
      rw [hrs]
    · have hrs : read_string (base ++ (L :: body.take t1)) base.length
          = (some (utf8DecodeIgnore (((base ++ (L :: body.take t1)).drop
              (base.length + 1)).take L)), base.length + 1 + L) := by
        unfold read_string
        rw [if_neg (by omega), hbyte, if_neg (by omega)]
      simp only [parseSinks]
      rw [hrs]
      split
      · rfl
      · rename_i name off1 heq
        injection heq with heq1 heq2
        split
        · rfl
        · rename_i hcond
          exfalso
          omega

lemma parseSinks_break (s : Sink) (base : List Nat) (t : Nat)
    (ht : t < (encodeSink s).length) (n : Nat) :
    (parseSinks (base ++ (encodeSink s).take t) (n + 1) base.length).items = [] := by
  have hsk : encodeSink s = ((utf8Encode s.name).length :: (utf8Encode s.name ++
      (encodeU32 s.sink_id ++ encodeU32 s.volume ++ [if s.muted then 1 else 0]))) := by
    simp [encodeSink, encodeString, List.append_assoc]
  have hts : (encodeSink s).length = (utf8Encode s.name).length + 10 := length_encodeSink s
  have hbody : (utf8Encode s.name ++ (encodeU32 s.sink_id ++ encodeU32 s.volume ++
      [if s.muted then 1 else 0])).length = (utf8Encode s.name).length + 9 := by
    simp [List.length_append, encodeU32]
  rw [hsk]
  exact parseSinks_break_gen (utf8Encode s.name).length _ base hbody t (by omega) n

lemma parseSinks_truncated (sinks : List Sink) (hs : ∀ s ∈ sinks, WfSink s) :
    ∀ (base : List Nat) (t n : Nat), t < (sinks.map encodeSink).flatten.length →
      sinks.length ≤ n →
      (parseSinks (base ++ ((sinks.map encodeSink).flatten).take t) n base.length).items
        = sinksCompleteWithin sinks t := by
  induction sinks with
  | nil =>
    intro base t n h1 h2
    simp at h1
  | cons s tl ih =>
    intro base t n h1 h2
    obtain ⟨m, rfl⟩ : ∃ m, n = m + 1 := ⟨n - 1, by simp at h2; omega⟩
    have hflat : ((s :: tl).map encodeSink).flatten
        = encodeSink s ++ (tl.map encodeSink).flatten := by simp
    by_cases hlt : t < (encodeSink s).length
    · have htake : (((s :: tl).map encodeSink).flatten).take t = (encodeSink s).take t := by
        rw [hflat, List.take_append_of_le_length (by omega)]
      rw [htake, parseSinks_break s base t hlt m]
      rw [sinksCompleteWithin, if_neg (by omega)]
    · obtain ⟨⟨hname, hfit⟩, hid, hvol⟩ := hs s (by simp)
      have htake : (((s :: tl).map encodeSink).flatten).take t
          = encodeSink s ++ ((tl.map encodeSink).flatten).take (t - (encodeSink s).length) := by
        rw [hflat, List.take_append_eq_append_take, List.take_of_length_le (by omega)]
      have h1' : t < (encodeSink s).length + ((tl.map encodeSink).flatten).length := by
        rw [hflat, List.length_append] at h1
        exact h1
      have ht2 : t - (encodeSink s).length < ((tl.map encodeSink).flatten).length := by
        omega
      have hm : tl.length ≤ m := by simp at h2; omega
      have e2 : base ++ (encodeSink s ++
          ((tl.map encodeSink).flatten).take (t - (encodeSink s).length))
          = (base ++ encodeSink s) ++
            ((tl.map encodeSink).flatten).take (t - (encodeSink s).length) := by
        simp [List.append_assoc]
      have hb : base.length + (encodeSink s).length = (base ++ encodeSink s).length := by
        simp
      rw [htake]
      have hstep := parseSinks_step s hid hvol base
        (((tl.map encodeSink).flatten).take (t - (encodeSink s).length)) m
      rw [hstep]
      simp only [e2, hb]
      simp only [ih (fun x hx => hs x (by simp [hx])) (base ++ encodeSink s)
        (t - (encodeSink s).length) m ht2 hm]
      rw [sinksCompleteWithin, if_pos (by omega)]
      simp [utf8DecodeIgnore_encode s.name hname]

lemma sinksCompleteWithin_zero (sinks : List Sink) : sinksCompleteWithin sinks 0 = [] := by
  cases sinks with
  | nil => rfl
  | cons s tl =>
    rw [sinksCompleteWithin, if_neg (by rw [length_encodeSink]; omega)]

lemma take_append_ge (l1 l2 : List Nat) (n : Nat) (hl : l1.length ≤ n) :
    (l1 ++ l2).take n = l1 ++ l2.take (n - l1.length) := by
  rw [List.take_append_eq_append_take, List.take_of_length_le hl]

lemma parse_sinkbuf_trunc (h : Header) (sinks : List Sink) (t : Nat)
    (hh : WfHeader h) (hts : fromtimestampRaises h.timestamp = false)
    (hs : ∀ s ∈ sinks, WfSink s) (hns : sinks.length < 4294967296)
    (htl : t < (sinks.map encodeSink).flatten.length) :
    (parse_shared_memory (encodeHeader h ++ (encodeU32 sinks.length ++
        ((sinks.map encodeSink).flatten).take t))).sinksOf
      = sinksCompleteWithin sinks t := by
  have hlen : (encodeHeader h ++ (encodeU32 sinks.length ++
      ((sinks.map encodeSink).flatten).take t)).length = 36 + t := by
    rw [List.length_append, List.length_append, List.length_take, length_encodeHeader,
      show (encodeU32 sinks.length).length = 4 from by simp [encodeU32],
      Nat.min_eq_left (by omega)]
    omega
  have hv := header_version h hh (encodeU32 sinks.length ++
    ((sinks.map encodeSink).flatten).take t)
  have hg := header_generation h hh (encodeU32 sinks.length ++
    ((sinks.map encodeSink).flatten).take t)
  have ht := header_timestamp h hh (encodeU32 sinks.length ++
    ((sinks.map encodeSink).flatten).take t)
  have hsc : readU32 (encodeHeader h ++ (encodeU32 sinks.length ++
      ((sinks.map encodeSink).flatten).take t)) 32 = sinks.length := by
    rw [show (32 : Nat) = (encodeHeader h).length from (length_encodeHeader h).symm]
    exact readU32_at _ _ _ hns
  have hps : (parseSinks (encodeHeader h ++ (encodeU32 sinks.length ++
      ((sinks.map encodeSink).flatten).take t)) sinks.length 36).items
      = sinksCompleteWithin sinks t := by
    have e : encodeHeader h ++ (encodeU32 sinks.length ++
        ((sinks.map encodeSink).flatten).take t)
        = (encodeHeader h ++ encodeU32 sinks.length) ++
            ((sinks.map encodeSink).flatten).take t := by
      simp [List.append_assoc]
    have hb : (encodeHeader h ++ encodeU32 sinks.length).length = 36 := by
      simp [List.length_append, length_encodeHeader, encodeU32]
    rw [e, show (36 : Nat) = (encodeHeader h ++ encodeU32 sinks.length).length from hb.symm]
    exact parseSinks_truncated sinks hs _ t sinks.length htl (Nat.le_refl _)
  unfold parse_shared_memory
  rw [if_neg (by omega)]
  simp only [hv, hg, ht, hts, hsc, Bool.false_eq_true, if_false]
  rw [if_neg (by omega)]
  split
  · rename_i hcond
    simp only [ParseResult.sinksOf]
    exact hps
  · rename_i hcond
    simp only [ParseResult.sinksOf]
    exact hps

/-- Decoding a §3 sink buffer truncated at byte boundary `p` (strictly
inside the sink region) recovers exactly the sinks fully contained in the
first `p` bytes. -/
lemma parse_truncated_buffer (h : Header) (sinks : List Sink) (p : Nat)
    (hh : WfHeader h) (hts : fromtimestampRaises h.timestamp = false)
    (hs : ∀ s ∈ sinks, WfSink s) (hns : sinks.length < 4294967296)
    (hp : p < 36 + (sinks.map encodeSink).flatten.length) :
    (parse_shared_memory ((encodeHeader h ++ encodeU32 sinks.length ++
        (sinks.map encodeSink).flatten).take p)).sinksOf
      = sinksCompleteWithin sinks (p - 36) := by
  have hassoc : encodeHeader h ++ encodeU32 sinks.length ++ (sinks.map encodeSink).flatten
      = encodeHeader h ++ (encodeU32 sinks.length ++ (sinks.map encodeSink).flatten) := by
    simp [List.append_assoc]
  have hBlen : (encodeHeader h ++ encodeU32 sinks.length ++
      (sinks.map encodeSink).flatten).length
      = 36 + (sinks.map encodeSink).flatten.length := by
    rw [List.length_append, List.length_append, length_encodeHeader,
      show (encodeU32 sinks.length).length = 4 from by simp [encodeU32]]
  have hlen : ((encodeHeader h ++ encodeU32 sinks.length ++
      (sinks.map encodeSink).flatten).take p).length = p := by
    rw [List.length_take, Nat.min_eq_left (by omega)]
  by_cases hp32 : p < 32
  · have hres : parse_shared_memory ((encodeHeader h ++ encodeU32 sinks.length ++
        (sinks.map encodeSink).flatten).take p) = .tooSmall := by
      unfold parse_shared_memory
      rw [if_pos (by omega)]
    rw [hres, show p - 36 = 0 from by omega, sinksCompleteWithin_zero]
    rfl
  · by_cases hp36 : p < 36
    · have e : (encodeHeader h ++ encodeU32 sinks.length ++
          (sinks.map encodeSink).flatten).take p
          = encodeHeader h ++ ((encodeU32 sinks.length ++
              (sinks.map encodeSink).flatten).take (p - 32)) := by
        rw [hassoc, take_append_ge _ _ p (by rw [length_encodeHeader]; omega),
          length_encodeHeader]
      have hv : readU32 ((encodeHeader h ++ encodeU32 sinks.length ++
          (sinks.map encodeSink).flatten).take p) 0 = h.version := by
        rw [e]; exact header_version h hh _
      have hg : readU64 ((encodeHeader h ++ encodeU32 sinks.length ++
          (sinks.map encodeSink).flatten).take p) 4 = h.generation := by
        rw [e]; exact header_generation h hh _
      have ht : readU64 ((encodeHeader h ++ encodeU32 sinks.length ++
          (sinks.map encodeSink).flatten).take p) 12 = h.timestamp := by
        rw [e]; exact header_timestamp h hh _
      have hres : parse_shared_memory ((encodeHeader h ++ encodeU32 sinks.length ++
          (sinks.map encodeSink).flatten).take p)
          = .noSinkData ⟨h.version, h.generation, h.timestamp⟩ := by
        unfold parse_shared_memory
        rw [if_neg (by omega)]
        simp only [hv, hg, ht, hts, Bool.false_eq_true, if_false]
        rw [if_pos (by omega)]
      rw [hres, show p - 36 = 0 from by omega, sinksCompleteWithin_zero]
      rfl
    · have e : (encodeHeader h ++ encodeU32 sinks.length ++
          (sinks.map encodeSink).flatten).take p
          = encodeHeader h ++ (encodeU32 sinks.length ++
              ((sinks.map encodeSink).flatten).take (p - 36)) := by
        rw [hassoc, take_append_ge _ _ p (by rw [length_encodeHeader]; omega),
          length_encodeHeader,
          take_append_ge _ _ (p - 32) (by simp [encodeU32]; omega),
          show (encodeU32 sinks.length).length = 4 from by simp [encodeU32],
          show p - 32 - 4 = p - 36 from by omega]
      rw [e]
      exact parse_sinkbuf_trunc h sinks (p - 36) hh hts hs hns (by omega)

lemma parseSinks_truncated_iff (data : List Nat) :
    ∀ (n offset : Nat), (parseSinks data n offset).truncated = true
      ↔ (parseSinks data n offset).items.length < n := by
  intro n
  induction n with
  | zero => intro offset; simp [parseSinks]
  | succ m ih =>
    intro offset
    unfold parseSinks
    rcases hr : read_string data offset with ⟨name?, off1⟩
    rcases name? with _ | name
    · simp
    · by_cases h9 : off1 + 9 > data.length
      · simp [h9]
      · simp [h9, ih]

lemma parseApps_truncated_iff (data : List Nat) :
    ∀ (n offset : Nat), (parseApps data n offset).truncated = true
      ↔ (parseApps data n offset).items.length < n := by
  intro n
  induction n with
  | zero => intro offset; simp [parseApps]
  | succ m ih =>
    intro offset
    unfold parseApps
    rcases hr : read_string data offset with ⟨name?, off1⟩
    rcases name? with _ | name
    · simp
    · rcases hr2 : read_string data off1 with ⟨cs?, off2⟩
      rcases cs? with _ | cs
      · simp [hr2]
      · by_cases ha2 : off2 ≥ data.length
        · simp [hr2, ha2]
        · simp [hr2, ha2, ih]

lemma done_inversion (data : List Nat) (h : Header) (sc : Nat) (sinks : List Sink)
    (skT : Bool) (ac : Nat) (apps : List App) (apT : Bool) (off : Nat)
    (hp : parse_shared_memory data = .done h sc sinks skT ac apps apT off) :
    ((skT || apT) = true ↔ (sinks.length < sc ∨ apps.length < ac)) := by
  simp only [parse_shared_memory] at hp
  split at hp
  · exact ParseResult.noConfusion hp
  · split at hp
    · exact ParseResult.noConfusion hp
    · split at hp
      · exact ParseResult.noConfusion hp
      · split at hp
        · exact ParseResult.noConfusion hp
        · injection hp with h1 h2 h3 h4 h5 h6 h7 h8
          subst h2
          subst h3
          subst h4
          subst h5
          subst h6
          subst h7
          simp only [Bool.or_eq_true]
          rw [parseSinks_truncated_iff, parseApps_truncated_iff]

/-! ### Claim theorems -/

set_option maxHeartbeats 2000000 in
/-- C1 (counterexample): the round-trip claim fails as stated.  A snapshot
built exactly per the §3 layout, with one well-formed sink and one
well-formed app but `timestamp_ms = 10^19`, decodes to the error outcome
(the timestamp conversion raises) and recovers no sinks at all. -/
theorem c1_roundtrip_counterexample :
    parse_shared_memory (encodeSnapshot ⟨1, 42, 10000000000000000000⟩
        [⟨[65], 7, 1061158912, false⟩] [⟨[66], [65], true⟩])
      = .parseError 1 42
    ∧ (parse_shared_memory (encodeSnapshot ⟨1, 42, 10000000000000000000⟩
        [⟨[65], 7, 1061158912, false⟩] [⟨[66], [65], true⟩])).sinksOf
      ≠ [⟨[65], 7, 1061158912, false⟩] := by
  have h1 : parse_shared_memory (encodeSnapshot ⟨1, 42, 10000000000000000000⟩
      [⟨[65], 7, 1061158912, false⟩] [⟨[66], [65], true⟩]) = .parseError 1 42 := by
    rfl
  refine ⟨h1, ?_⟩
  rw [h1]
  decide

/-- C1 (amended): for every snapshot built per the §3 layout from
well-formed records whose header timestamp converts without raising,
decoding recovers exactly the N sinks and M apps in order, every field
value-for-value and every volume bit pattern intact, consuming the whole
buffer. -/
theorem c1_roundtrip (h : Header) (sinks : List Sink) (apps : List App)
    (hh : WfHeader h) (hts : fromtimestampRaises h.timestamp = false)
    (hs : ∀ s ∈ sinks, WfSink s) (ha : ∀ a ∈ apps, WfApp a)
    (hns : sinks.length < 4294967296) (hna : apps.length < 4294967296) :
    parse_shared_memory (encodeSnapshot h sinks apps)
      = .done h sinks.length sinks false apps.length apps false
          (encodeSnapshot h sinks apps).length :=
  parse_encodeSnapshot h sinks apps hh hts hs ha hns hna

set_option maxHeartbeats 2000000 in
/-- C1 witness: the amended round-trip at a concrete snapshot. -/
theorem c1_roundtrip_witness :
    parse_shared_memory (encodeSnapshot ⟨1, 42, 1700000000000⟩
        [⟨[83, 112], 7, 1061158912, false⟩] [⟨[102, 120], [83, 112], true⟩])
      = .done ⟨1, 42, 1700000000000⟩ 1 [⟨[83, 112], 7, 1061158912, false⟩] false
          1 [⟨[102, 120], [83, 112], true⟩] false
          (encodeSnapshot ⟨1, 42, 1700000000000⟩
            [⟨[83, 112], 7, 1061158912, false⟩] [⟨[102, 120], [83, 112], true⟩]).length :=
  c1_roundtrip ⟨1, 42, 1700000000000⟩ _ _ (by decide) (by decide)
    (by decide) (by decide) (by decide) (by decide)

set_option maxHeartbeats 2000000 in
/-- C2 (counterexample): truncation monotonicity fails as stated when the
header timestamp is out of the convertible range: the buffer of two
well-formed sinks truncated exactly after the first complete record
yields no sinks (the decode errors at the timestamp), not the first
sink as the claim requires. -/
theorem c2_truncation_counterexample :
    parse_shared_memory ((encodeHeader ⟨1, 42, 10000000000000000000⟩ ++ encodeU32 2 ++
        (([⟨[65], 7, 0, false⟩, ⟨[66], 8, 0, false⟩] : List Sink).map
          encodeSink).flatten).take 47)
      = .parseError 1 42
    ∧ (parse_shared_memory ((encodeHeader ⟨1, 42, 10000000000000000000⟩ ++ encodeU32 2 ++
        (([⟨[65], 7, 0, false⟩, ⟨[66], 8, 0, false⟩] : List Sink).map
          encodeSink).flatten).take 47)).sinksOf
      ≠ [⟨[65], 7, 0, false⟩] := by
  have h1 : parse_shared_memory ((encodeHeader ⟨1, 42, 10000000000000000000⟩ ++
      encodeU32 2 ++ (([⟨[65], 7, 0, false⟩, ⟨[66], 8, 0, false⟩] : List Sink).map
        encodeSink).flatten).take 47) = .parseError 1 42 := by
    rfl
  refine ⟨h1, ?_⟩
  rw [h1]
  decide

/-- C2 (amended): for every well-formed sink buffer whose header timestamp
converts without raising, truncating at any byte boundary strictly before
the end of the last record yields exactly the sinks whose complete
encodings lie before the truncation point — never a partial or garbage
sink — and the loop ends silently rather than with an error outcome. -/
theorem c2_truncation_monotonicity (h : Header) (sinks : List Sink) (p : Nat)
    (hh : WfHeader h) (hts : fromtimestampRaises h.timestamp = false)
    (hs : ∀ s ∈ sinks, WfSink s) (hns : sinks.length < 4294967296)
    (hp : p < 36 + (sinks.map encodeSink).flatten.length) :
    (parse_shared_memory ((encodeHeader h ++ encodeU32 sinks.length ++
        (sinks.map encodeSink).flatten).take p)).sinksOf
      = sinksCompleteWithin sinks (p - 36) :=
  parse_truncated_buffer h sinks p hh hts hs hns hp

set_option maxHeartbeats 2000000 in
/-- C2 witness: cutting a two-sink buffer at byte 50 (inside the second
record) keeps exactly the first sink. -/
theorem c2_truncation_monotonicity_witness :
    (parse_shared_memory ((encodeHeader ⟨1, 42, 0⟩ ++ encodeU32 2 ++
        (([⟨[65], 7, 5, false⟩, ⟨[66], 8, 6, true⟩] : List Sink).map
          encodeSink).flatten).take 50)).sinksOf
      = sinksCompleteWithin [⟨[65], 7, 5, false⟩, ⟨[66], 8, 6, true⟩] (50 - 36) :=
  c2_truncation_monotonicity ⟨1, 42, 0⟩ _ 50 (by decide) (by decide) (by decide)
    (by decide) (by decide)

/-- C3: the instrumented parser, in which every single-byte access and
every 4- or 8-byte field read of the source is routed through a bounds
check that fails on any out-of-buffer access, succeeds on every input and
agrees with the parser: no decode of any buffer, including overstated
sink or app counts, ever reads outside the buffer. -/
theorem c3_memory_safety (data : List Nat) :
    parse_shared_memoryC data = some (parse_shared_memory data) :=
  parse_shared_memoryC_eq data

/-- C4: any buffer shorter than 32 bytes yields the bare `tooSmall`
outcome, which carries no header, sink, or app data. -/
theorem c4_too_small (data : List Nat) (hlen : data.length < 32) :
    parse_shared_memory data = .tooSmall := by
  unfold parse_shared_memory
  rw [if_pos hlen]

/-- C4 witness: the empty buffer. -/
theorem c4_too_small_witness :
    ([] : List Nat).length < 32 ∧ parse_shared_memory [] = .tooSmall :=
  ⟨by decide, c4_too_small [] (by decide)⟩

/-- C5: the string-helper contract of `read_string`: failure at or past
the buffer end (cursor unmoved), failure when fewer than `L` bytes remain
after the length byte `L = buffer[c]` (cursor past the length byte), the
empty string for `L = 0` advancing exactly 1, and otherwise the decoded
payload with the cursor advanced by `1 + L`. -/
theorem c5_read_string_contract (data : List Nat) (c : Nat) :
    (data.length ≤ c → read_string data c = (none, c))
    ∧ (c < data.length → data.length < c + 1 + byteAt data c →
        read_string data c = (none, c + 1))
    ∧ (c < data.length → byteAt data c = 0 → read_string data c = (some [], c + 1))
    ∧ (c < data.length → c + 1 + byteAt data c ≤ data.length →
        read_string data c = (some (utf8DecodeIgnore ((data.drop (c + 1)).take
          (byteAt data c))), c + 1 + byteAt data c)) := by
  refine ⟨?_, ?_, ?_, ?_⟩
  · intro h1
    unfold read_string
    rw [if_pos (by omega)]
  · intro h1 h2
    unfold read_string
    rw [if_neg (by omega), if_pos (by omega)]
  · intro h1 h2
    unfold read_string
    rw [if_neg (by omega), if_neg (by omega), h2]
    simp [utf8DecodeIgnore, utf8Run]
  · intro h1 h2
    unfold read_string
    rw [if_neg (by omega), if_neg (by omega)]

/-- C5 witness: the four contract cases at concrete buffers. -/
theorem c5_read_string_contract_witness :
    read_string [2, 65, 66, 99] 4 = (none, 4)
    ∧ read_string [5, 1] 0 = (none, 1)
    ∧ read_string [0] 0 = (some [], 1)
    ∧ read_string [2, 65, 66, 99] 0 = (some [65, 66], 3) := by
  refine ⟨(c5_read_string_contract [2, 65, 66, 99] 4).1 (by decide),
    (c5_read_string_contract [5, 1] 0).2.1 (by decide) (by decide),
    (c5_read_string_contract [0] 0).2.2.1 (by decide) (by decide),
    ((c5_read_string_contract [2, 65, 66, 99] 0).2.2.2 (by decide)
      (by decide)).trans (by decide)⟩

/-- C6 (counterexample): the payload byte `0xFF` is not valid UTF-8; the
helper returns the empty string — the invalid byte is dropped by
`errors='ignore'` — rather than the replacement character U+FFFD (65533)
that "replaced" decoding would produce. -/
theorem c6_lenient_decoding_counterexample :
    read_string [1, 255] 0 = (some [], 2)
    ∧ (read_string [1, 255] 0).1 ≠ some [65533] := by
  refine ⟨by decide, by decide⟩

/-- C6 (amended): string decoding is lenient — whenever the bounds checks
pass, `read_string` succeeds no matter the payload bytes, returning the
`errors='ignore'` decoding (invalid sequences dropped, never raising) with
the cursor advanced past all `L` payload bytes. -/
theorem c6_lenient_decoding (data : List Nat) (c : Nat) (h1 : c < data.length)
    (h2 : c + 1 + byteAt data c ≤ data.length) :
    read_string data c = (some (utf8DecodeIgnore ((data.drop (c + 1)).take
      (byteAt data c))), c + 1 + byteAt data c) := by
  unfold read_string
  rw [if_neg (by omega), if_neg (by omega)]

/-- C6 witness: a two-byte invalid-UTF-8 payload decodes (to the empty
string) with the cursor advanced past both payload bytes. -/
theorem c6_lenient_decoding_witness :
    read_string [2, 255, 254] 0 = (some [], 3) :=
  (c6_lenient_decoding [2, 255, 254] 0 (by decide) (by decide)).trans (by decide)

/-- C7 (counterexample): the missing-count claim fails as stated: a
33-byte buffer whose timestamp field is `10^19` ends with the parse-error
outcome, not `noSinkData`. -/
theorem c7_missing_count_counterexample :
    32 ≤ (encodeU32 1 ++ encodeU64 42 ++ encodeU64 10000000000000000000 ++
        List.replicate 13 0).length
    ∧ (encodeU32 1 ++ encodeU64 42 ++ encodeU64 10000000000000000000 ++
        List.replicate 13 0).length < 36
    ∧ parse_shared_memory (encodeU32 1 ++ encodeU64 42 ++
        encodeU64 10000000000000000000 ++ List.replicate 13 0) = .parseError 1 42
    ∧ (ParseResult.parseError 1 42) ≠ .noSinkData ⟨1, 42, 10000000000000000000⟩ := by
  refine ⟨by decide, by decide, by decide, by decide⟩

/-- C7 (amended): for buffers of length at least 32 whose timestamp
converts without raising, a missing sink count (fewer than 4 bytes at
offset 32) ends the whole decode with `noSinkData` carrying only the
header, and a missing app count (fewer than 4 bytes at the post-sink
cursor) ends the whole decode with `noAppData` carrying the header and
the parsed sinks — full early returns, not section skips. -/
theorem c7_missing_count_early_return (data : List Nat) (h32 : 32 ≤ data.length)
    (hts : fromtimestampRaises (readU64 data 12) = false) :
    (data.length < 36 → parse_shared_memory data
        = .noSinkData ⟨readU32 data 0, readU64 data 4, readU64 data 12⟩)
    ∧ (∀ (items : List Sink) (off : Nat) (tr : Bool),
        parseSinks data (readU32 data 32) 36 = ⟨items, off, tr⟩ →
        36 ≤ data.length → data.length < off + 4 →
        parse_shared_memory data
          = .noAppData ⟨readU32 data 0, readU64 data 4, readU64 data 12⟩
              (readU32 data 32) items tr) := by
  constructor
  · intro h36
    unfold parse_shared_memory
    rw [if_neg (by omega)]
    simp only [hts, Bool.false_eq_true, if_false]
    rw [if_pos (by omega)]
  · intro items off tr hps h36 hoff
    unfold parse_shared_memory
    rw [if_neg (by omega)]
    simp only [hts, Bool.false_eq_true, if_false]
    rw [if_neg (by omega)]
    simp only [hps]
    rw [if_pos (by omega)]

/-- C7 witness: a 33-byte buffer exercises the `noSinkData` return and a
36-byte buffer with sink count 0 exercises the `noAppData` return. -/
theorem c7_missing_count_early_return_witness :
    parse_shared_memory (encodeU32 1 ++ encodeU64 2 ++ encodeU64 3 ++
        List.replicate 13 0) = .noSinkData ⟨1, 2, 3⟩
    ∧ parse_shared_memory (encodeU32 1 ++ encodeU64 2 ++ encodeU64 3 ++
        List.replicate 12 0 ++ encodeU32 0) = .noAppData ⟨1, 2, 3⟩ 0 [] false := by
  constructor
  · exact ((c7_missing_count_early_return _ (by decide) (by decide)).1
      (by decide)).trans (by decide)
  · exact ((c7_missing_count_early_return _ (by decide) (by decide)).2 [] 36 false
      (by decide) (by decide) (by decide)).trans (by decide)

/-- C8: a buffer ending immediately after the sink-count field (offset 36)
with `sink_count = 3` decodes to zero sinks with the sink loop cut short
on its first iteration (truncated flag), and the decode returns early at
the missing app count with no app output — the app loop is never
entered. -/
theorem c8_count_without_records :
    parse_shared_memory (encodeHeader ⟨1, 42, 1700000000000⟩ ++ encodeU32 3)
      = .noAppData ⟨1, 42, 1700000000000⟩ 3 [] true := by
  decide

/-- C9: when the decode reaches the `done` outcome, its truncation flags
are set exactly when a loop parsed fewer records than its declared count
(a record was cut short); and on a clean decode of a §3 snapshot the
final consumed offset equals the total buffer length, with both flags
clear. -/
theorem c9_final_status :
    (∀ (data : List Nat) (h : Header) (sc : Nat) (sinks : List Sink) (skT : Bool)
        (ac : Nat) (apps : List App) (apT : Bool) (off : Nat),
      parse_shared_memory data = .done h sc sinks skT ac apps apT off →
        ((skT || apT) = true ↔ (sinks.length < sc ∨ apps.length < ac)))
    ∧ (∀ (h : Header) (sinks : List Sink) (apps : List App),
        WfHeader h → fromtimestampRaises h.timestamp = false →
        (∀ s ∈ sinks, WfSink s) → (∀ a ∈ apps, WfApp a) →
        sinks.length < 4294967296 → apps.length < 4294967296 →
        parse_shared_memory (encodeSnapshot h sinks apps)
          = .done h sinks.length sinks false apps.length apps false
              (encodeSnapshot h sinks apps).length) :=
  ⟨fun data h sc sinks skT ac apps apT off hp =>
      done_inversion data h sc sinks skT ac apps apT off hp,
    fun h sinks apps hh hts hs ha hns hna =>
      parse_encodeSnapshot h sinks apps hh hts hs ha hns hna⟩

/-- C9 witness: the clean decode of a tiny snapshot, and the status
equivalence instantiated at its `done` outcome. -/
theorem c9_final_status_witness :
    parse_shared_memory (encodeSnapshot ⟨1, 2, 3⟩ [] [])
      = .done ⟨1, 2, 3⟩ 0 [] false 0 [] false
          (encodeSnapshot ⟨1, 2, 3⟩ [] []).length
    ∧ ((false || false) = true ↔ (([] : List Sink).length < 0 ∨
        ([] : List App).length < 0)) := by
  have h2 := c9_final_status.2 ⟨1, 2, 3⟩ [] [] (by decide) (by decide)
    (by simp) (by simp) (by decide) (by decide)
  exact ⟨h2, c9_final_status.1 _ _ _ _ _ _ _ _ _ h2⟩

set_option maxHeartbeats 2000000 in
/-- C10: a well-formed §3 snapshot of length at least 32 containing one
complete sink record and one complete app record, whose `timestamp_ms`
field is `10^19`, decodes to the parse-error outcome: the Version and
Generation values are produced, but no sink or app output at all, and
the (total) parse function still returns a value — the process does not
crash. -/
theorem c10_timestamp_overflow :
    32 ≤ (encodeSnapshot ⟨5, 9, 10000000000000000000⟩ [⟨[67], 3, 7, true⟩]
        [⟨[68], [67], false⟩]).length
    ∧ parse_shared_memory (encodeSnapshot ⟨5, 9, 10000000000000000000⟩
        [⟨[67], 3, 7, true⟩] [⟨[68], [67], false⟩]) = .parseError 5 9 := by
  refine ⟨by decide, by decide⟩
